import Mathlib

/-
Verification of the table-properties-collector FFI bridge
(src/table_properties_collector.rs).

The Rust file bridges a user-supplied `TablePropertiesCollector` trait
object to the storage engine through a fixed set of extern "C" trampoline
functions.  We embed the bridge shallowly:

* bytes are natural numbers, byte strings are lists of naturals;
* engine memory (the regions behind the raw key/value pointers handed to
  the `add` trampoline) is a total function from addresses to bytes, and
  `slice::from_raw_parts(p, n)` becomes `readBytes mem p n`;
* a concrete collector type `T` implementing the trait becomes a state
  type `sig` together with a record of its three methods
  (`TablePropertiesCollector sig`); `need_compact` carries the default of
  the trait, returning `false`;
* `CString::new` (which fails exactly on an interior NUL byte) returns
  an `Option`, modelling the panic of the `unwrap` in the source as the
  `none` outcome;
* the single heap allocation of `new_table_properties_collector`
  (`Box::into_raw(Box::new(handle))`) and its reclamation in `destruct`
  (`Box::from_raw`) are modelled by a heap that is the list of live
  allocation addresses;
* a separate model (`UnwindingCollector`) makes a possible panic of the
  user `add` method explicit as an `Except` value, so that the complete
  absence of any `catch_unwind` in the trampoline bodies becomes a
  provable propagation fact.
-/

namespace RustRocksdb

/-- Modelled from the spec: the `DBEntryType` enumeration lives in the
`crocksdb_ffi` crate of this repository, which is not under src/.  Per
spec section 3 and section 6 it is a closed enumeration of entry kinds
represented on the wire as a small integer, following the compiled
engine definition: plain value 0, deletion 1, single deletion 2, merge
operand 3, other 4. -/
inductive EntryType where
  | put
  | delete
  | singleDelete
  | merge
  | other
deriving DecidableEq, Repr

/-- Modelled from the spec: the reinterpretation that `mem::transmute`
performs in the `add` trampoline — the wire code is mapped to the
enumeration variant with that discriminant, with no range validation
(spec section 3: the engine guarantees only defined codes, 0 to 4, are
sent; the catch-all branch is never exercised under that guarantee). -/
def entryTypeOfCode : Nat → EntryType
  | 0 => EntryType.put
  | 1 => EntryType.delete
  | 2 => EntryType.singleDelete
  | 3 => EntryType.merge
  | _ => EntryType.other

/-- `slice::from_raw_parts(p, n)` over engine memory `mem`: the `n`
bytes stored at addresses `p, p+1, ..., p+n-1`. -/
def readBytes (mem : Nat → Nat) (p n : Nat) : List Nat :=
  (List.range n).map fun i => mem (p + i)

/-- The `TablePropertiesCollector` trait: a concrete implementor with
state type `sig` is a record of its methods.  `add` mutates the
receiver, `finish` mutates the receiver and returns the property
mapping (embedded as the sequence of key/value pairs the returned
`HashMap` enumerates), and `need_compact` takes the receiver by shared
reference and defaults to `false` exactly as the trait default does. -/
structure TablePropertiesCollector (sig : Type) where
  add : sig → List Nat → List Nat → EntryType → Nat → Nat → sig
  finish : sig → sig × List (List Nat × List Nat)
  need_compact : sig → Bool := fun _ => false

/-- `CString::new` on the bytes of the name: fails exactly when the
bytes contain an interior NUL, and otherwise appends the terminator. -/
def cstringNew (bytes : List Nat) : Option (List Nat) :=
  if 0 ∈ bytes then none else some (bytes ++ [0])

/-- The `TablePropertiesCollectorHandle` struct: the stored
null-terminated name and the owned collector state. -/
structure TablePropertiesCollectorHandle (sig : Type) where
  name : List Nat
  rep : sig

/-- `TablePropertiesCollectorHandle::new`: builds the handle from the
name and the collector taken by value.  The `CString::new(name).unwrap()`
of the source panics exactly when `CString::new` fails; the panic is the
`none` outcome. -/
def TablePropertiesCollectorHandle.new {sig : Type} (cname : List Nat) (rep : sig) :
    Option (TablePropertiesCollectorHandle sig) :=
  (cstringNew cname).map fun n => { name := n, rep := rep }

namespace ffi

/-- The `name` trampoline: returns the stored name buffer of the
handle (the source returns `handle.name.as_ptr()`; we return the bytes
behind that pointer). -/
def name {sig : Type} (handle : TablePropertiesCollectorHandle sig) : List Nat :=
  handle.name

/-- The `add` trampoline: rebuilds the key and value slices from the
raw pointer/length pairs, transmutes the entry-type code, and forwards
everything to the collector `add` method, producing the updated
handle. -/
def add {sig : Type} (c : TablePropertiesCollector sig)
    (handle : TablePropertiesCollectorHandle sig) (mem : Nat → Nat)
    (key keyLen value valueLen : Nat) (entryType : Nat) (seq fileSize : Nat) :
    TablePropertiesCollectorHandle sig :=
  { handle with
    rep := c.add handle.rep (readBytes mem key keyLen) (readBytes mem value valueLen)
        (entryTypeOfCode entryType) seq fileSize }

/-- The engine append primitive
`crocksdb_user_collected_properties_add`: copies one key/value pair
into the engine-owned sink. -/
def userCollectedPropertiesAdd (props : List (List Nat × List Nat))
    (kv : List Nat × List Nat) : List (List Nat × List Nat) :=
  props ++ [kv]

/-- The `finish` trampoline: calls the collector `finish` method once
and pushes each returned pair, in order, into the engine sink through
the append primitive.  Returns the updated handle and the updated
sink. -/
def finish {sig : Type} (c : TablePropertiesCollector sig)
    (handle : TablePropertiesCollectorHandle sig)
    (props : List (List Nat × List Nat)) :
    TablePropertiesCollectorHandle sig × List (List Nat × List Nat) :=
  let r := c.finish handle.rep
  ({ handle with rep := r.1 }, r.2.foldl userCollectedPropertiesAdd props)

/-- The `need_compact` trampoline: takes the handle through a const
pointer (shared reference) and forwards to the collector method.  The
returned pair makes the (unchanged) handle explicit next to the
boolean result. -/
def need_compact {sig : Type} (c : TablePropertiesCollector sig)
    (handle : TablePropertiesCollectorHandle sig) :
    TablePropertiesCollectorHandle sig × Bool :=
  (handle, c.need_compact handle.rep)

/-- The `destruct` trampoline: `Box::from_raw` reclaims the single
allocation at the given address, removing it from the set of live
allocations. -/
def destruct (heap : List Nat) (p : Nat) : List Nat :=
  heap.erase p

end ffi

/-- A fresh heap address: strictly larger than every live address. -/
def freshPtr (heap : List Nat) : Nat :=
  heap.foldr max 0 + 1

/-- Outcome of `new_table_properties_collector`: the heap of live
allocations afterwards, the opaque handle address handed to the engine
(none on the panic path), and how many times
`crocksdb_table_properties_collector_create` was invoked. -/
structure CreateResult where
  heap : List Nat
  handlePtr : Option Nat
  engineCreateCalls : Nat

/-- `new_table_properties_collector`: builds the handle first (which
panics on an interior NUL in the name, before anything else happens),
then boxes it — the one heap allocation — and registers the raw
address with the engine through
`crocksdb_table_properties_collector_create`. -/
def new_table_properties_collector {sig : Type} (heap : List Nat)
    (cname : List Nat) (collector : sig) : CreateResult :=
  match TablePropertiesCollectorHandle.new cname collector with
  | none => { heap := heap, handlePtr := none, engineCreateCalls := 0 }
  | some _ =>
      { heap := freshPtr heap :: heap
        handlePtr := some (freshPtr heap)
        engineCreateCalls := 1 }

/-- A collector model in which the user `add` method may panic, the
panic being the `Except.error` outcome. -/
structure UnwindingCollector (sig : Type) where
  add : sig → List Nat → List Nat → EntryType → Nat → Nat → Except Unit sig

namespace ffi

/-- The `add` trampoline over the panicking collector model: the source
body calls `handle.rep.add(...)` directly, wrapped in no
`catch_unwind` and no abort guard, so the outcome of the trampoline is
the outcome of the user method. -/
def addUnwinding {sig : Type} (c : UnwindingCollector sig)
    (handle : TablePropertiesCollectorHandle sig) (mem : Nat → Nat)
    (key keyLen value valueLen : Nat) (entryType : Nat) (seq fileSize : Nat) :
    Except Unit (TablePropertiesCollectorHandle sig) :=
  (c.add handle.rep (readBytes mem key keyLen) (readBytes mem value valueLen)
      (entryTypeOfCode entryType) seq fileSize).map
    fun st => { handle with rep := st }

end ffi

/-- A collector whose `add` panics on every call. -/
def failingCollector : UnwindingCollector Unit :=
  { add := fun _ _ _ _ _ _ => Except.error () }

/-- A collector that records the entry types it observes. -/
def recordingCollector : TablePropertiesCollector (List EntryType) :=
  { add := fun s _ _ t _ _ => s ++ [t]
    finish := fun s => (s, []) }

/-- A collector that counts how many times `finish` is called on it. -/
def countingCollector : TablePropertiesCollector Nat :=
  { add := fun s _ _ _ _ _ => s
    finish := fun n => (n + 1, []) }

/-- One engine call against a live handle, for the frame-effect claims. -/
inductive EngineCall where
  | add (mem : Nat → Nat) (key keyLen value valueLen entryType seq fileSize : Nat)
  | finish (props : List (List Nat × List Nat))
  | need_compact

/-- The handle after one engine call. -/
def runCall {sig : Type} (c : TablePropertiesCollector sig)
    (handle : TablePropertiesCollectorHandle sig) :
    EngineCall → TablePropertiesCollectorHandle sig
  | EngineCall.add mem k kl v vl t seq fs => ffi.add c handle mem k kl v vl t seq fs
  | EngineCall.finish props => (ffi.finish c handle props).1
  | EngineCall.need_compact => (ffi.need_compact c handle).1

/-- The handle after a sequence of engine calls. -/
def runCalls {sig : Type} (c : TablePropertiesCollector sig)
    (handle : TablePropertiesCollectorHandle sig) (calls : List EngineCall) :
    TablePropertiesCollectorHandle sig :=
  calls.foldl (runCall c) handle

/-! Helper lemmas shared by the claim theorems. -/

theorem cstringNew_eq_none_iff (bytes : List Nat) :
    cstringNew bytes = none ↔ 0 ∈ bytes := by
  by_cases h : 0 ∈ bytes <;> simp [cstringNew, h]

theorem handle_new_eq_none_iff {sig : Type} (cname : List Nat) (rep : sig) :
    TablePropertiesCollectorHandle.new cname rep = none ↔ 0 ∈ cname := by
  rw [TablePropertiesCollectorHandle.new]
  rw [Option.map_eq_none']
  exact cstringNew_eq_none_iff cname

theorem handle_new_eq_some {sig : Type} (cname : List Nat) (rep : sig)
    (h : ¬ 0 ∈ cname) :
    TablePropertiesCollectorHandle.new cname rep
      = some { name := cname ++ [0], rep := rep } := by
  simp [TablePropertiesCollectorHandle.new, cstringNew, h]

theorem foldl_userCollectedPropertiesAdd (l sink : List (List Nat × List Nat)) :
    l.foldl ffi.userCollectedPropertiesAdd sink = sink ++ l := by
  induction l generalizing sink with
  | nil => simp
  | cons kv l ih => simp [ffi.userCollectedPropertiesAdd, ih]

theorem readBytes_length (mem : Nat → Nat) (p n : Nat) :
    (readBytes mem p n).length = n := by
  simp [readBytes]

theorem readBytes_getD (mem : Nat → Nat) (p n i : Nat) (hi : i < n) :
    (readBytes mem p n).getD i 0 = mem (p + i) := by
  rw [readBytes, List.getD_eq_getElem _ _ (by simpa using hi)]
  simp

theorem mem_le_foldr_max (l : List Nat) (a : Nat) (ha : a ∈ l) :
    a ≤ l.foldr max 0 := by
  induction l with
  | nil => cases ha
  | cons b l ih =>
      rcases List.mem_cons.mp ha with h | h
      · subst h
        exact le_max_left a (l.foldr max 0)
      · exact le_trans (ih h) (le_max_right b (l.foldr max 0))

theorem freshPtr_not_mem (heap : List Nat) : freshPtr heap ∉ heap := by
  intro h
  have hle := mem_le_foldr_max heap _ h
  have hlt : heap.foldr max 0 + 1 ≤ heap.foldr max 0 := hle
  omega

theorem runCall_name {sig : Type} (c : TablePropertiesCollector sig)
    (handle : TablePropertiesCollectorHandle sig) (k : EngineCall) :
    (runCall c handle k).name = handle.name := by
  cases k <;> rfl

theorem runCalls_name {sig : Type} (c : TablePropertiesCollector sig)
    (handle : TablePropertiesCollectorHandle sig) (calls : List EngineCall) :
    (runCalls c handle calls).name = handle.name := by
  induction calls generalizing handle with
  | nil => rfl
  | cons k ks ih =>
      have h1 : runCalls c handle (k :: ks) = runCalls c (runCall c handle k) ks := rfl
      rw [h1, ih (runCall c handle k), runCall_name]

/-! The claim theorems. -/

/-- Claim C1 (the code contradicts it): the add trampoline wraps the
user method in no catch and no abort guard, so invoked on a collector
whose add panics, the panic leaves the trampoline unconverted — it is
neither swallowed into a no-op nor turned into an abort by this code,
and so reaches the extern C boundary by unwinding. -/
theorem add_trampoline_lets_panic_escape :
    ffi.addUnwinding failingCollector { name := [0], rep := () }
        (fun _ => 0) 0 0 0 0 0 0 0
      = Except.error () := rfl

/-- Claim C2: one call of the finish trampoline advances the collector
state by exactly one application of its finish method and appends
exactly the produced pairs to the sink in order; consequently the count
of every pair in the sink grows by exactly its count in the finish
result (none duplicated, none lost), and a collector counting finish
invocations observes exactly one. -/
theorem finish_trampoline_pushes_each_pair_once {sig : Type}
    (c : TablePropertiesCollector sig)
    (handle : TablePropertiesCollectorHandle sig)
    (sink : List (List Nat × List Nat)) :
    ffi.finish c handle sink
        = ({ handle with rep := (c.finish handle.rep).1 },
            sink ++ (c.finish handle.rep).2)
      ∧ (∀ kv : List Nat × List Nat,
          ((ffi.finish c handle sink).2).count kv
            = sink.count kv + ((c.finish handle.rep).2).count kv)
      ∧ ∀ n : Nat, ∀ nm : List Nat,
          ((ffi.finish countingCollector { name := nm, rep := n } sink).1).rep
            = n + 1 := by
  refine ⟨?_, ?_, fun n nm => rfl⟩
  · rw [ffi.finish, foldl_userCollectedPropertiesAdd]
  · intro kv
    rw [ffi.finish]
    simp [foldl_userCollectedPropertiesAdd, List.count_append]

/-- Claim C3: handle construction succeeds exactly when the name has no
interior NUL byte, and on success stores the collector (taken by value,
hence owned) and the name with its terminator appended. -/
theorem handle_new_fails_iff_interior_nul {sig : Type} (cname : List Nat)
    (rep : sig) :
    (TablePropertiesCollectorHandle.new cname rep = none ↔ 0 ∈ cname)
      ∧ ∀ hd, TablePropertiesCollectorHandle.new cname rep = some hd →
          hd.rep = rep ∧ hd.name = cname ++ [0] := by
  refine ⟨handle_new_eq_none_iff cname rep, ?_⟩
  intro hd hsome
  by_cases h0 : 0 ∈ cname
  · rw [(handle_new_eq_none_iff cname rep).mpr h0] at hsome
    cases hsome
  · rw [handle_new_eq_some cname rep h0] at hsome
    cases hsome
    exact ⟨rfl, rfl⟩

/-- Claim C3, witness: construction fails on a name holding a NUL byte
and succeeds on a clean name, storing the collector and the terminated
name. -/
theorem handle_new_fails_iff_interior_nul_check :
    TablePropertiesCollectorHandle.new [0] (37 : Nat) = none
      ∧ ({ name := [116, 0], rep := 37 } :
            TablePropertiesCollectorHandle Nat).rep = 37
      ∧ ({ name := [116, 0], rep := 37 } :
            TablePropertiesCollectorHandle Nat).name = [116] ++ [0] := by
  refine ⟨(handle_new_fails_iff_interior_nul [0] 37).1.mpr (by decide), ?_, ?_⟩
  · exact ((handle_new_fails_iff_interior_nul [116] 37).2
      { name := [116, 0], rep := 37 }
      (handle_new_eq_some [116] 37 (by decide))).1
  · exact ((handle_new_fails_iff_interior_nul [116] 37).2
      { name := [116, 0], rep := 37 }
      (handle_new_eq_some [116] 37 (by decide))).2

/-- Claim C4: for every defined wire code the add trampoline hands the
collector the enumeration value of that code — typed, never the raw
integer — and the deletion code yields the deletion variant. -/
theorem add_trampoline_transmutes_entry_code {sig : Type}
    (c : TablePropertiesCollector sig)
    (handle : TablePropertiesCollectorHandle sig) (mem : Nat → Nat)
    (key keyLen value valueLen code seq fileSize : Nat) (_hcode : code < 5) :
    (ffi.add c handle mem key keyLen value valueLen code seq fileSize).rep
        = c.add handle.rep (readBytes mem key keyLen)
            (readBytes mem value valueLen) (entryTypeOfCode code) seq fileSize
      ∧ entryTypeOfCode 1 = EntryType.delete :=
  ⟨rfl, rfl⟩

/-- Claim C4, witness: a collector recording the entry types it sees,
fed the deletion wire code 1 through the add trampoline, records the
deletion variant. -/
theorem add_trampoline_transmutes_entry_code_check :
    (ffi.add recordingCollector { name := [0], rep := [] }
        (fun _ => 0) 0 0 0 0 1 0 0).rep = [EntryType.delete] := by
  have h := add_trampoline_transmutes_entry_code recordingCollector
    { name := [0], rep := [] } (fun _ => 0) 0 0 0 0 1 0 0 (by decide)
  rw [h.1]
  rfl

/-- Claim C5: the add trampoline passes the collector exactly the
keyLen and valueLen bytes found at the key and value addresses, with
seq and fileSize forwarded unchanged; a zero length yields the empty
byte sequence. -/
theorem add_trampoline_forwards_exact_views {sig : Type}
    (c : TablePropertiesCollector sig)
    (handle : TablePropertiesCollectorHandle sig) (mem : Nat → Nat)
    (key keyLen value valueLen code seq fileSize : Nat) :
    (ffi.add c handle mem key keyLen value valueLen code seq fileSize).rep
        = c.add handle.rep (readBytes mem key keyLen)
            (readBytes mem value valueLen) (entryTypeOfCode code) seq fileSize
      ∧ (readBytes mem key keyLen).length = keyLen
      ∧ (readBytes mem value valueLen).length = valueLen
      ∧ (∀ i, i < keyLen → (readBytes mem key keyLen).getD i 0 = mem (key + i))
      ∧ (∀ i, i < valueLen →
          (readBytes mem value valueLen).getD i 0 = mem (value + i))
      ∧ readBytes mem key 0 = [] :=
  ⟨rfl, readBytes_length mem key keyLen, readBytes_length mem value valueLen,
    fun i hi => readBytes_getD mem key keyLen i hi,
    fun i hi => readBytes_getD mem value valueLen i hi, rfl⟩

/-- Claim C5, witness: over the identity memory the two bytes at
address 10 come through as the bytes 10 and 11, and a zero-length view
is empty. -/
theorem add_trampoline_forwards_exact_views_check :
    (readBytes (fun a => a) 10 2).getD 1 0 = 10 + 1
      ∧ readBytes (fun a => a) 10 0 = [] := by
  have h := add_trampoline_forwards_exact_views recordingCollector
    { name := [0], rep := [] } (fun a => a) 10 2 0 0 0 0 0
  exact ⟨h.2.2.2.1 1 (by decide), h.2.2.2.2.2⟩

/-- Claim C6: the need_compact trampoline returns exactly the
collector method result, and when the collector record omits the
method the trait default makes it return false. -/
theorem need_compact_trampoline_reflects_and_defaults {sig : Type}
    (c : TablePropertiesCollector sig)
    (handle : TablePropertiesCollectorHandle sig) :
    (ffi.need_compact c handle).2 = c.need_compact handle.rep
      ∧ ∀ (a : sig → List Nat → List Nat → EntryType → Nat → Nat → sig)
          (f : sig → sig × List (List Nat × List Nat)),
          (ffi.need_compact { add := a, finish := f } handle).2 = false :=
  ⟨rfl, fun _ _ => rfl⟩

/-- Claim C7: the name trampoline returns the stored name bytes, and
no sequence of add, finish or need_compact calls changes them. -/
theorem name_trampoline_stable_across_calls {sig : Type}
    (c : TablePropertiesCollector sig)
    (handle : TablePropertiesCollectorHandle sig) (calls : List EngineCall) :
    ffi.name (runCalls c handle calls) = ffi.name handle
      ∧ (runCalls c handle calls).name = handle.name :=
  ⟨runCalls_name c handle calls, runCalls_name c handle calls⟩

/-- Claim C8: for any clean name, create performs exactly one heap
allocation at a fresh address, hands that address to the engine, and
destruct on that address reclaims exactly it, restoring the heap — no
leak and no double free. -/
theorem create_then_destroy_is_balanced {sig : Type} (heap cname : List Nat)
    (collector : sig) (hname : ¬ 0 ∈ cname) :
    ∃ p, (new_table_properties_collector heap cname collector).handlePtr = some p
      ∧ (new_table_properties_collector heap cname collector).heap = p :: heap
      ∧ p ∉ heap
      ∧ ffi.destruct (new_table_properties_collector heap cname collector).heap p
          = heap := by
  have hsome := handle_new_eq_some cname collector hname
  refine ⟨freshPtr heap, ?_, ?_, freshPtr_not_mem heap, ?_⟩ <;>
    simp [new_table_properties_collector, hsome, ffi.destruct]

/-- Claim C8, witness: on the empty heap with a clean one-byte name,
create allocates one address and destruct on it restores the empty
heap. -/
theorem create_then_destroy_is_balanced_check :
    ∃ p, (new_table_properties_collector [] [116] (0 : Nat)).handlePtr = some p
      ∧ (new_table_properties_collector [] [116] (0 : Nat)).heap = p :: []
      ∧ p ∉ ([] : List Nat)
      ∧ ffi.destruct (new_table_properties_collector [] [116] (0 : Nat)).heap p
          = [] :=
  create_then_destroy_is_balanced [] [116] 0 (by decide)

/-- Claim C9: when the name holds an interior NUL, create fails during
handle construction: the heap is untouched, no pointer is produced,
and the engine registration call is never made. -/
theorem create_fails_before_engine_registration {sig : Type}
    (heap cname : List Nat) (collector : sig) (hnul : 0 ∈ cname) :
    new_table_properties_collector heap cname collector
      = { heap := heap, handlePtr := none, engineCreateCalls := 0 } := by
  have hnone := (handle_new_eq_none_iff cname collector).mpr hnul
  simp [new_table_properties_collector, hnone]

/-- Claim C9, witness: a name consisting of one NUL byte makes create
fail with the heap unchanged and zero engine registration calls. -/
theorem create_fails_before_engine_registration_check :
    new_table_properties_collector [] [0] (0 : Nat)
      = { heap := [], handlePtr := none, engineCreateCalls := 0 } :=
  create_fails_before_engine_registration [] [0] 0 (by decide)

/-- Claim C10: the need_compact trampoline reads the handle through a
shared reference only: the handle — its name and its collector state —
comes back unchanged, alongside the collector method result. -/
theorem need_compact_trampoline_readonly {sig : Type}
    (c : TablePropertiesCollector sig)
    (handle : TablePropertiesCollectorHandle sig) :
    (ffi.need_compact c handle).1 = handle
      ∧ ((ffi.need_compact c handle).1).name = handle.name
      ∧ ((ffi.need_compact c handle).1).rep = handle.rep
      ∧ (ffi.need_compact c handle).2 = c.need_compact handle.rep :=
  ⟨rfl, rfl, rfl, rfl⟩

end RustRocksdb
